import Mathlib

/-!
Verification model of `projj`'s command-execution engine
(`src/lib/base_command.js`): configuration resolution, the persisted
repository index (cache), hook invocation, subprocess execution, and the
add-repository workflow.

Paths are modelled after Node's posix `path` module (`join`, `normalize`,
`dirname`), operating on character lists.  Effectful steps (subprocess
runs, cache reads, filesystem checks, prompting, file writes) are
embedded as pure functions that return an explicit event trace, with
subprocess outcomes supplied by an oracle.
-/

set_option autoImplicit false

/-! ### Path model (Node `path` posix) -/

/-- Split a character list into `/`-separated segments (empty segments kept). -/
def splitSegsAux : List Char → List Char → List (List Char)
  | acc, [] => [acc.reverse]
  | acc, c :: rest =>
    if c = '/' then acc.reverse :: splitSegsAux [] rest
    else splitSegsAux (c :: acc) rest

/-- Nonempty `/`-separated segments of a path. -/
def splitSegs (cs : List Char) : List (List Char) :=
  (splitSegsAux [] cs).filter (fun seg => seg ≠ [])

/-- One step of Node's `normalizeString`: resolve `.` and `..` against a
reversed accumulator of segments.  `allowUp` is true for relative paths,
where leading `..` segments are preserved. -/
def normStep (allowUp : Bool) (acc : List (List Char)) (seg : List Char) :
    List (List Char) :=
  if seg = ['.'] then acc
  else if seg = ['.', '.'] then
    match acc with
    | [] => if allowUp then [['.', '.']] else []
    | top :: rest =>
      if top = ['.', '.'] then
        if allowUp then ['.', '.'] :: acc else acc
      else rest
  else seg :: acc

def normalizeSegs (allowUp : Bool) (segs : List (List Char)) : List (List Char) :=
  (segs.foldl (normStep allowUp) []).reverse

/-- Join segments with `/` (Node's `joined += '/' + arg` loop / `intercalate`). -/
def joinSlash : List (List Char) → List Char
  | [] => []
  | [x] => x
  | x :: xs => x ++ '/' :: joinSlash xs

/-- Node `path.normalize` (posix) on character lists. -/
def normalizeL (cs : List Char) : List Char :=
  if cs = [] then ['.']
  else
    let isAbs : Bool := decide (cs.head? = some '/')
    let trailing : Bool := decide (cs.getLast? = some '/')
    let segs := normalizeSegs (!isAbs) (splitSegs cs)
    let body := joinSlash segs
    if body = [] then
      if isAbs then ['/'] else if trailing then ['.', '/'] else ['.']
    else
      let body' := if trailing then body ++ ['/'] else body
      if isAbs then '/' :: body' else body'

/-- Node `path.join` (posix): drop empty arguments, join with `/`, normalize;
with no nonempty argument the result is `"."`. -/
def pathJoin (parts : List String) : String :=
  if parts.filter (fun p => p ≠ "") = [] then "."
  else String.mk (normalizeL (joinSlash ((parts.filter (fun p => p ≠ "")).map String.toList)))

/-- Last index `i ≥ 1` at which a `/` occurs (Node's `dirname` scan ignores
a slash at position 0). -/
def lastSlashGe1 (cs : List Char) : Option Nat :=
  (List.range cs.length).reverse.find?
    (fun i => decide (1 ≤ i) && decide (cs.get? i = some '/'))

/-- Node `path.dirname` (posix) on character lists: drop trailing
separators, then cut at the last remaining `/` (ignoring one at index 0);
`//` is preserved as Node does. -/
def dirnameL (cs : List Char) : List Char :=
  match lastSlashGe1 ((cs.reverse.dropWhile (fun c => c = '/')).reverse) with
  | none => if cs.head? = some '/' then ['/'] else ['.']
  | some i =>
    if cs.head? = some '/' ∧ i = 1 then ['/', '/']
    else ((cs.reverse.dropWhile (fun c => c = '/')).reverse).take i

/-- Node `path.dirname` on strings. -/
def dirname (s : String) : String := String.mk (dirnameL s.toList)

/-- A path is absolute when it starts with `/` (Node posix `path.isAbsolute`). -/
def isAbsolute (s : String) : Bool := decide (s.toList.head? = some '/')

/-- JS `String.prototype.replace` with a plain-string pattern: replace the
first occurrence only. -/
def replaceFirst (pat rep : List Char) : List Char → List Char
  | [] => []
  | c :: cs =>
    if pat.isPrefixOf (c :: cs) then rep ++ (c :: cs).drop pat.length
    else c :: replaceFirst pat rep cs

/-! ### JSON values (for hook-specific configuration and `JSON.stringify`) -/

/-- JSON value tree: objects, arrays, strings, numbers, booleans, null. -/
inductive Json where
  | null : Json
  | bool : Bool → Json
  | num : Int → Json
  | str : String → Json
  | arr : List Json → Json
  | obj : List (String × Json) → Json

/-- Minimal JSON string escaping (backslash and double quote). -/
def jsonEscape (s : String) : String :=
  String.mk (s.toList.foldr
    (fun c acc =>
      if c = '"' then '\\' :: '"' :: acc
      else if c = '\\' then '\\' :: '\\' :: acc
      else c :: acc) [])

mutual

/-- `JSON.stringify` on the JSON value model. -/
def Json.stringify : Json → String
  | Json.null => "null"
  | Json.bool true => "true"
  | Json.bool false => "false"
  | Json.num n => toString n
  | Json.str s => "\"" ++ jsonEscape s ++ "\""
  | Json.arr xs => "[" ++ stringifyArr xs ++ "]"
  | Json.obj kvs => "\x7b" ++ stringifyObj kvs ++ "\x7d"

def stringifyArr : List Json → String
  | [] => ""
  | [x] => x.stringify
  | x :: y :: xs => x.stringify ++ "," ++ stringifyArr (y :: xs)

def stringifyObj : List (String × Json) → String
  | [] => ""
  | [(k, v)] => "\"" ++ jsonEscape k ++ "\":" ++ v.stringify
  | (k, v) :: e :: kvs =>
    "\"" ++ jsonEscape k ++ "\":" ++ v.stringify ++ "," ++ stringifyObj (e :: kvs)

end

/-- JavaScript truthiness of a JSON value (`null`, `false`, `0`, `""` are falsy). -/
def Json.truthy : Json → Bool
  | Json.null => false
  | Json.bool b => b
  | Json.num n => decide (n ≠ 0)
  | Json.str s => decide (s ≠ "")
  | Json.arr _ => true
  | Json.obj _ => true

/-! ### Configuration objects -/

/-- `Object.assign({}, base, overlay)` on association lists: keys of `base`
in order (values overridden by `overlay` where present), followed by the
keys only `overlay` has, in `overlay`'s order. -/
def assignList {α : Type} (base overlay : List (String × α)) : List (String × α) :=
  base.map (fun e => (e.1, (overlay.lookup e.1).getD e.2)) ++
    overlay.filter (fun e => (base.lookup e.1).isNone)

/-- A configuration object as read from `config.json`: any of the three
recognized fields may be absent, and further top-level keys (hook-specific
configuration) are kept in `extra`. -/
structure Config where
  base : Option String
  hooks : Option (List (String × String))
  aliasT : Option (List (String × String))
  extra : List (String × Json)

/-- A resolved configuration (after merging with the module `defaults`,
which define all three recognized fields). -/
structure RConfig where
  base : String
  hooks : List (String × String)
  aliasT : List (String × String)
  extra : List (String × Json)

/-- View a resolved configuration as a plain configuration object again
(every recognized field present). -/
def RConfig.asConfig (r : RConfig) : Config :=
  { base := some r.base, hooks := some r.hooks, aliasT := some r.aliasT,
    extra := r.extra }

/-- Ambient process context: `process.env.HOME`, `process.cwd()`, the
module directory (`__dirname`), and `process.env`. -/
structure Ctx where
  home : String
  cwd : String
  moduleDir : String
  procEnv : List (String × String)

/-- `configDir = path.join(process.env.HOME, '.projj')`. -/
def configDir (ctx : Ctx) : String := pathJoin [ctx.home, ".projj"]

/-- `configPath = path.join(configDir, 'config.json')`. -/
def configPath (ctx : Ctx) : String := pathJoin [configDir ctx, "config.json"]

/-- `cachePath = path.join(configDir, 'cache.json')`. -/
def cachePath (ctx : Ctx) : String := pathJoin [configDir ctx, "cache.json"]

/-- The module-level `defaults` object. -/
def defaults (ctx : Ctx) : RConfig :=
  { base := ctx.home ++ "/projj",
    hooks := [],
    aliasT := [("github://", "https://github.com/")],
    extra := [] }

/-- The four-case `switch (config.base[0])` of `resolveConfig`. -/
def resolveBase (ctx : Ctx) (b : String) : String :=
  if b.toList.head? = some '.' then pathJoin [dirname (configPath ctx), b]
  else if b.toList.head? = some '~' then
    String.mk (replaceFirst ['~'] ctx.home.toList b.toList)
  else if b.toList.head? = some '/' then b
  else pathJoin [ctx.cwd, b]

/-- `resolveConfig(config, defaults)`: shallow merge of `config` over
`defaults` (`Object.assign({}, defaults, config)`), then `base`
normalization per the four-case rule. -/
def resolveConfig (ctx : Ctx) (config : Config) (dflts : RConfig) : RConfig :=
  { base := resolveBase ctx (config.base.getD dflts.base),
    hooks := config.hooks.getD dflts.hooks,
    aliasT := config.aliasT.getD dflts.aliasT,
    extra := assignList dflts.extra config.extra }

/-- JS property access `this.config[name]` on the resolved configuration
object: the three recognized fields shadow `extra` keys. -/
def configLookup (cfg : RConfig) (k : String) : Option Json :=
  if k = "base" then some (Json.str cfg.base)
  else if k = "hooks" then
    some (Json.obj (cfg.hooks.map (fun e => (e.1, Json.str e.2))))
  else if k = "alias" then
    some (Json.obj (cfg.aliasT.map (fun e => (e.1, Json.str e.2))))
  else cfg.extra.lookup k

/-! ### Repository index (cache), world state and event traces -/

/-- Modelled from the spec: the repository index of `./cache` (`cache.js`,
not under `src/`): a persisted mapping from canonical path to repository
metadata (here: the repository URL), lazily loaded into memory on first
access, mutated in memory by `set`, and flushed to the persisted file by
`dump`. -/
structure Cache where
  loaded : Bool
  mem : List (String × String)
  file : List (String × String)
deriving DecidableEq, Repr

/-- Modelled from the spec: lazy load of the persisted index into memory
(first `get` in a process lifetime). -/
def Cache.load (c : Cache) : Cache :=
  if c.loaded then c else { c with mem := c.file, loaded := true }

/-- Modelled from the spec: `cache.get(key)` — load if needed, then report
whether `key` is present; returns the updated cache alongside. -/
def Cache.get (c : Cache) (k : String) : Bool × Cache :=
  let c2 := c.load
  (((c2.mem.lookup k).isSome), c2)

/-- Modelled from the spec: `cache.set(key, value)` — in-memory upsert,
no persistence. -/
def Cache.set (c : Cache) (k v : String) : Cache :=
  { c with mem := assignList c.mem [(k, v)] }

/-- Modelled from the spec: `cache.dump()` — write the in-memory index
out to the persisted file, replacing it. -/
def Cache.dump (c : Cache) : Cache :=
  { c with file := c.mem }

/-- Options passed to the subprocess runner (`runscript`): environment and
optional explicit working directory.  (The stream plumbing of `runScript`
— `stdio: 'pipe'`, the `through` stdout sink — is out of the model.) -/
structure RunOpt where
  env : List (String × String)
  cwd : Option String
deriving DecidableEq, Repr

/-- Observable effects of one command invocation, in program order. -/
inductive Event where
  | script : String → RunOpt → Event
  | cacheRead : String → Event
  | fsCheck : String → Event
  | cacheSet : String → String → Event
  | cacheDump : Event
  | prompt : String → Event
  | fileRead : String → Event
  | fileWrite : String → Event
  | mkdirEv : String → Event
deriving DecidableEq, Repr

/-- Events that mutate the index (`cache.set` / `cache.dump`). -/
def Event.isMut : Event → Bool
  | Event.cacheSet _ _ => true
  | Event.cacheDump => true
  | _ => false

/-- `runScript(cmd, opt)`: invoke the subprocess; the external outcome is
given by `oracle`.  On non-zero exit the error (carrying the command) is
rethrown after the captured stderr is logged. -/
def runScript (oracle : String → RunOpt → Bool) (cmd : String) (opt : RunOpt) :
    Except String Unit × List Event :=
  if oracle cmd opt then (Except.ok (), [Event.script cmd opt])
  else (Except.error cmd, [Event.script cmd opt])

/-- Template-literal interpolation of a possibly-undefined value
(JS renders `undefined` as the string "undefined"). -/
def templateVal (o : Option String) : String := o.getD "undefined"

/-- The hook environment overlay built by `runHook`: `PATH` prefixed with
`configDir/hooks`, `PROJJ_HOOK_NAME`, and `PROJJ_HOOK_CONFIG` when
`this.config[name]` is truthy. -/
def hookEnv (ctx : Ctx) (cfg : RConfig) (name : String) : List (String × String) :=
  let env := [("PATH", configDir ctx ++ "/hooks:" ++ templateVal (ctx.procEnv.lookup "PATH")),
              ("PROJJ_HOOK_NAME", name)]
  match configLookup cfg name with
  | some j => if j.truthy then env ++ [("PROJJ_HOOK_CONFIG", j.stringify)] else env
  | none => env

/-- The candidate working directory chosen by `runHook`: `base/key` when
`key` is in the index, otherwise `key` itself. -/
def hookCwd (cfg : RConfig) (c : Cache) (cacheKey : String) : String :=
  if (Cache.get c cacheKey).1 then pathJoin [cfg.base, cacheKey] else cacheKey

/-- World state threaded through an invocation: which paths exist on disk,
and the repository index. -/
structure World where
  fsPaths : List String
  cache : Cache
deriving DecidableEq, Repr

/-- The full subprocess options `runHook` passes to `runScript`: the ambient
environment overlaid with the hook overlay (overlay wins), and the candidate
working directory if it is truthy and exists on disk. -/
def hookOpt (ctx : Ctx) (cfg : RConfig) (w : World) (name cacheKey : String) : RunOpt :=
  let cwd := hookCwd cfg w.cache cacheKey
  { env := assignList ctx.procEnv (hookEnv ctx cfg name),
    cwd := if cwd ≠ "" ∧ w.fsPaths.contains cwd then some cwd else none }

/-- `runHook(name, cacheKey)`: no-op when `hooks[name]` is falsy; otherwise
build the environment overlay, resolve the working directory against the
index and the filesystem, and run the hook command. -/
def runHook (ctx : Ctx) (oracle : String → RunOpt → Bool) (cfg : RConfig) (w : World)
    (name cacheKey : String) : Except String Unit × World × List Event :=
  match cfg.hooks.lookup name with
  | none => (Except.ok (), w, [])
  | some hook =>
    if hook = "" then (Except.ok (), w, [])
    else
      let opt := hookOpt ctx cfg w name cacheKey
      let cwd := hookCwd cfg w.cache cacheKey
      let w1 : World := { w with cache := (Cache.get w.cache cacheKey).2 }
      let s := runScript oracle hook opt
      (s.1, w1, Event.cacheRead cacheKey :: (if cwd = "" then [] else [Event.fsCheck cwd]) ++ s.2)

/-- The clone command line of `addRepo`:
`git clone ${repo} ${targetPath} > /dev/null`. -/
def cloneCmd (cfg : RConfig) (repo cacheKey : String) : String :=
  "git clone " ++ repo ++ " " ++ pathJoin [cfg.base, cacheKey] ++ " > /dev/null"

/-- The clone subprocess options: `Object.assign({ GIT_SSH: __dirname/ssh.js },
process.env)` (the ambient environment wins on conflict), no explicit cwd. -/
def cloneOpt (ctx : Ctx) : RunOpt :=
  { env := assignList [("GIT_SSH", pathJoin [ctx.moduleDir, "ssh.js"])] ctx.procEnv,
    cwd := none }

/-- `addRepo(repo, cacheKey)`: preadd hook, clone, `cache.set`, `cache.dump`,
postadd hook; each failure aborts the remaining steps. -/
def addRepo (ctx : Ctx) (oracle : String → RunOpt → Bool) (cfg : RConfig) (w : World)
    (repo cacheKey : String) : Except String Unit × World × List Event :=
  match runHook ctx oracle cfg w "preadd" cacheKey with
  | (Except.error e, w1, evs1) => (Except.error e, w1, evs1)
  | (Except.ok _, w1, evs1) =>
    match runScript oracle (cloneCmd cfg repo cacheKey) (cloneOpt ctx) with
    | (Except.error e, evs2) => (Except.error e, w1, evs1 ++ evs2)
    | (Except.ok _, evs2) =>
      let w2 : World := { w1 with cache := (w1.cache.set cacheKey repo).dump }
      let post := runHook ctx oracle cfg w2 "postadd" cacheKey
      (post.1, post.2.1,
        evs1 ++ evs2 ++ [Event.cacheSet cacheKey repo, Event.cacheDump] ++ post.2.2)

/-! ### URL normalization -/

/-- Does the URL already use a recognized transport scheme? -/
def isTransportUrl (url : String) : Bool :=
  "http://".toList.isPrefixOf url.toList || "https://".toList.isPrefixOf url.toList

/-- Modelled from the spec: the external `giturl.parse` collaborator
(the `giturl` package is not part of this repository's sources).  URLs that
already use a recognized transport scheme pass through unchanged before
scheme-stripping; the conversion of every other URL form into a standard
transport URL is abstracted by the `conv` parameter. -/
def giturlParse (conv : String → String) (url : String) : String :=
  if isTransportUrl url then url else conv url

/-- The regex replace `url.replace(/https?:\/\//, '')`: delete the first
occurrence of `http://` or `https://`. -/
def stripScheme : List Char → List Char
  | [] => []
  | c :: cs =>
    if "https://".toList.isPrefixOf (c :: cs) then (c :: cs).drop 8
    else if "http://".toList.isPrefixOf (c :: cs) then (c :: cs).drop 7
    else c :: stripScheme cs

/-- `url2dir(url)`: normalize via `giturl.parse`, then strip the
`http(s)://` scheme to obtain the canonical key. -/
def url2dir (conv : String → String) (url : String) : String :=
  String.mk (stripScheme (giturlParse conv url).toList)

/-! ### Configuration loading -/

/-- `loadConfig()`: ensure the configuration directory, read the persisted
configuration if present and resolve it; keep it when its `base` is truthy.
Otherwise obtain a base from the prompt collaborator (`promptChoose`,
offered `defaults.base` as the default answer) and persist a freshly
resolved configuration.  `configFile` is the parsed content of
`config.json`, or `none` when the file does not exist. -/
def loadConfig (ctx : Ctx) (promptChoose : String → String)
    (configFile : Option Config) : RConfig × List Event :=
  let evs := [Event.mkdirEv (configDir ctx), Event.fsCheck (configPath ctx)]
  match configFile with
  | some raw =>
    let cfg := resolveConfig ctx raw (defaults ctx)
    if cfg.base ≠ "" then (cfg, evs ++ [Event.fileRead (configPath ctx)])
    else
      let b := promptChoose (defaults ctx).base
      let cfg2 := resolveConfig ctx
        { base := some b, hooks := none, aliasT := none, extra := [] } (defaults ctx)
      (cfg2, evs ++ [Event.fileRead (configPath ctx),
                     Event.prompt (defaults ctx).base,
                     Event.fileWrite (configPath ctx)])
  | none =>
    let b := promptChoose (defaults ctx).base
    let cfg2 := resolveConfig ctx
      { base := some b, hooks := none, aliasT := none, extra := [] } (defaults ctx)
    (cfg2, evs ++ [Event.prompt (defaults ctx).base,
                   Event.fileWrite (configPath ctx)])
section PathLemmas

theorem joinSlash_head (x : List Char) (xs : List (List Char)) (hx : x ≠ []) :
    (joinSlash (x :: xs)).head? = x.head? := by
  cases xs with
  | nil => rfl
  | cons y ys =>
    show (x ++ '/' :: joinSlash (y :: ys)).head? = x.head?
    rw [List.head?_append]
    cases x with
    | nil => exact absurd rfl hx
    | cons c cs => rfl

theorem normalizeL_ne_nil (cs : List Char) : normalizeL cs ≠ [] := by
  unfold normalizeL
  by_cases h : cs = []
  · simp [h]
  · simp only [if_neg h]
    split
    · split <;> (try split) <;> simp
    · split <;> split <;> simp_all

theorem normalizeL_head_slash (cs : List Char) (h : cs.head? = some '/') :
    (normalizeL cs).head? = some '/' := by
  have hne : cs ≠ [] := by intro hc; rw [hc] at h; simp at h
  have hb : decide (cs.head? = some '/') = true := decide_eq_true h
  unfold normalizeL
  rw [if_neg hne, hb]
  simp only [Bool.not_true]
  split <;> simp

theorem string_ne_empty_iff (s : String) : s ≠ "" ↔ s.data ≠ [] := by
  constructor
  · intro h hc
    exact h (String.ext hc)
  · intro h hc
    rw [hc] at h
    exact h rfl

theorem pathJoin_ne_empty (parts : List String) : pathJoin parts ≠ "" := by
  unfold pathJoin
  split
  · simp
  · rw [string_ne_empty_iff]
    exact normalizeL_ne_nil _

theorem isAbsolute_mk (l : List Char) :
    isAbsolute (String.mk l) = decide (l.head? = some '/') := rfl

theorem toList_ne_nil_of_ne_empty (p : String) (hp : p ≠ "") : p.toList ≠ [] := by
  have := (string_ne_empty_iff p).mp hp
  simpa [String.toList] using this

theorem pathJoin_abs (p : String) (rest : List String) (hp : p ≠ "")
    (ha : isAbsolute p) : isAbsolute (pathJoin (p :: rest)) := by
  have hd : p.toList ≠ [] := toList_ne_nil_of_ne_empty p hp
  have hhead : p.toList.head? = some '/' := by
    simpa [isAbsolute, decide_eq_true_eq] using ha
  have hfil : (p :: rest).filter (fun q => q ≠ "") =
      p :: rest.filter (fun q => q ≠ "") := by
    rw [List.filter_cons]
    simp [hp]
  unfold pathJoin
  rw [hfil, if_neg (List.cons_ne_nil _ _), isAbsolute_mk]
  apply decide_eq_true
  apply normalizeL_head_slash
  rw [List.map_cons, joinSlash_head _ _ hd]
  exact hhead

end PathLemmas
section DirnameLemmas

theorem lastSlashGe1_spec (q : List Char) (i : Nat) (h : lastSlashGe1 q = some i) :
    1 ≤ i ∧ q.get? i = some '/' ∧ i < q.length := by
  have hp := List.find?_some h
  have hm := List.mem_of_find?_eq_some h
  rw [List.mem_reverse, List.mem_range] at hm
  rw [Bool.and_eq_true, decide_eq_true_eq, decide_eq_true_eq] at hp
  exact ⟨hp.1, hp.2, hm⟩

theorem head?_take (q : List Char) (i : Nat) (hi : 1 ≤ i) :
    (q.take i).head? = q.head? := by
  cases q with
  | nil => simp
  | cons c cs =>
    cases i with
    | zero => omega
    | succ n => rfl

theorem dirnameL_ne_nil (cs : List Char) : dirnameL cs ≠ [] := by
  unfold dirnameL
  split
  · split <;> simp
  · rename_i i hfind
    obtain ⟨h1, _, hlen⟩ := lastSlashGe1_spec _ _ hfind
    split
    · simp
    · rw [Ne, List.take_eq_nil_iff]
      push_neg
      refine ⟨by omega, ?_⟩
      intro hq
      rw [hq] at hlen
      simp at hlen

theorem prefix_head (q cs : List Char) (hpre : q <+: cs) (hq : q ≠ []) :
    cs.head? = q.head? := by
  obtain ⟨t, ht⟩ := hpre
  rw [← ht, List.head?_append]
  cases q with
  | nil => exact absurd rfl hq
  | cons c l => rfl

theorem dirnameL_head_slash (cs : List Char) (h : cs.head? = some '/') :
    (dirnameL cs).head? = some '/' := by
  unfold dirnameL
  split
  · simp [h]
  · rename_i i hfind
    obtain ⟨h1, _, hlen⟩ := lastSlashGe1_spec _ _ hfind
    by_cases hi : i = 1
    · simp [hi, h]
    · rw [if_neg (by simp [hi])]
      have hqpre : (cs.reverse.dropWhile (fun c => c = '/')).reverse <+: cs :=
        List.rdropWhile_prefix _ cs
      have hqne : (cs.reverse.dropWhile (fun c => c = '/')).reverse ≠ [] := by
        intro hq
        rw [hq] at hlen
        simp at hlen
      rw [head?_take _ _ h1, ← prefix_head _ _ hqpre hqne]
      exact h

theorem dirname_ne_empty (s : String) : dirname s ≠ "" := by
  rw [string_ne_empty_iff]
  exact dirnameL_ne_nil _

theorem dirname_abs (s : String) (h : isAbsolute s) : isAbsolute (dirname s) := by
  rw [dirname, isAbsolute_mk]
  apply decide_eq_true
  apply dirnameL_head_slash
  simpa [isAbsolute, decide_eq_true_eq] using h

end DirnameLemmas

section ResolveLemmas

theorem isAbsolute_ne_empty (s : String) (h : isAbsolute s) : s ≠ "" := by
  rw [string_ne_empty_iff]
  intro hc
  rw [isAbsolute, decide_eq_true_eq] at h
  rw [show s.toList = s.data from rfl, hc] at h
  simp at h

theorem configDir_abs (ctx : Ctx) (hh : isAbsolute ctx.home) :
    isAbsolute (configDir ctx) :=
  pathJoin_abs _ _ (isAbsolute_ne_empty _ hh) hh

theorem configPath_abs (ctx : Ctx) (hh : isAbsolute ctx.home) :
    isAbsolute (configPath ctx) :=
  pathJoin_abs _ _ (pathJoin_ne_empty _) (configDir_abs ctx hh)

theorem replaceFirst_tilde (home rest : List Char) :
    replaceFirst ['~'] home ('~' :: rest) = home ++ rest := by
  unfold replaceFirst
  rw [if_pos]
  · simp
  · simp [List.isPrefixOf]

theorem resolveBase_abs (ctx : Ctx) (b : String)
    (hh : isAbsolute ctx.home) (hc : isAbsolute ctx.cwd) :
    isAbsolute (resolveBase ctx b) := by
  unfold resolveBase
  by_cases h1 : b.toList.head? = some '.'
  · rw [if_pos h1]
    exact pathJoin_abs _ _ (dirname_ne_empty _) (dirname_abs _ (configPath_abs ctx hh))
  · rw [if_neg h1]
    by_cases h2 : b.toList.head? = some '~'
    · rw [if_pos h2]
      obtain ⟨rest, hrest⟩ : ∃ rest, b.toList = '~' :: rest := by
        cases hb : b.toList with
        | nil => rw [hb] at h2; simp at h2
        | cons c l =>
          rw [hb] at h2
          simp at h2
          exact ⟨l, by rw [h2]⟩
      rw [hrest, replaceFirst_tilde, isAbsolute_mk]
      apply decide_eq_true
      rw [List.head?_append]
      have : ctx.home.toList.head? = some '/' := by
        simpa [isAbsolute, decide_eq_true_eq] using hh
      rw [this]
      rfl
    · rw [if_neg h2]
      by_cases h3 : b.toList.head? = some '/'
      · rw [if_pos h3]
        rw [isAbsolute]
        exact decide_eq_true h3
      · rw [if_neg h3]
        exact pathJoin_abs _ _ (isAbsolute_ne_empty _ hc) hc

theorem resolveConfig_abs (ctx : Ctx) (c : Config) (d : RConfig)
    (hh : isAbsolute ctx.home) (hc : isAbsolute ctx.cwd) :
    isAbsolute (resolveConfig ctx c d).base :=
  resolveBase_abs ctx _ hh hc

end ResolveLemmas
section AssignLemmas

theorem lookup_map_assign {α : Type} (b o : List (String × α)) (k : String) :
    (b.map (fun e => (e.1, (o.lookup e.1).getD e.2))).lookup k =
      match b.lookup k with
      | some v => some ((o.lookup k).getD v)
      | none => none := by
  induction b with
  | nil => rfl
  | cons hd tl ih =>
    obtain ⟨a, v⟩ := hd
    by_cases hk : k = a
    · subst hk
      simp [List.lookup_cons]
    · have hne : (k == a) = false := by
        simp [hk]
      simp only [List.map_cons, List.lookup_cons, hne]
      exact ih

theorem lookup_filter_keep {α : Type} (b o : List (String × α)) (k : String)
    (hb : b.lookup k = none) :
    (o.filter (fun e => (b.lookup e.1).isNone)).lookup k = o.lookup k := by
  induction o with
  | nil => rfl
  | cons hd tl ih =>
    obtain ⟨a, v⟩ := hd
    by_cases hk : k = a
    · subst hk
      rw [List.filter_cons, if_pos (by simp [hb])]
      simp [List.lookup_cons]
    · have hne : (k == a) = false := by simp [hk]
      rw [List.filter_cons]
      split
      · simp only [List.lookup_cons, hne]
        exact ih
      · simp only [List.lookup_cons, hne] at *
        exact ih

theorem lookup_append_or {α : Type} (l₁ l₂ : List (String × α)) (k : String) :
    (l₁ ++ l₂).lookup k = (l₁.lookup k).or (l₂.lookup k) := by
  induction l₁ with
  | nil => simp [List.lookup]
  | cons hd tl ih =>
    obtain ⟨a, v⟩ := hd
    by_cases hk : k = a
    · subst hk
      simp [List.lookup_cons]
    · have hne : (k == a) = false := by simp [hk]
      simp only [List.cons_append, List.lookup_cons, hne]
      exact ih

theorem lookup_assignList {α : Type} (b o : List (String × α)) (k : String) :
    (assignList b o).lookup k = (o.lookup k).or (b.lookup k) := by
  unfold assignList
  rw [lookup_append_or, lookup_map_assign]
  cases hb : b.lookup k with
  | none =>
    rw [lookup_filter_keep _ _ _ hb]
    cases o.lookup k <;> rfl
  | some v =>
    cases ho : o.lookup k <;> simp [ho]

theorem lookup_of_mem_nodupKeys {α : Type} (l : List (String × α)) (k : String) (v : α)
    (hmem : (k, v) ∈ l) (hnd : (l.map Prod.fst).Nodup) : l.lookup k = some v := by
  induction l with
  | nil => simp at hmem
  | cons hd tl ih =>
    obtain ⟨a, w⟩ := hd
    rw [List.map_cons, List.nodup_cons] at hnd
    rcases List.mem_cons.mp hmem with heq | htl
    · cases heq
      simp [List.lookup_cons]
    · by_cases hk : k = a
      · subst hk
        exact absurd (List.mem_map.mpr ⟨(k, v), htl, rfl⟩) hnd.1
      · have hne : (k == a) = false := by simp [hk]
        simp only [List.lookup_cons, hne]
        exact ih htl hnd.2

theorem mem_lookup_isSome {α : Type} (l : List (String × α)) (k : String) (v : α)
    (hmem : (k, v) ∈ l) : (l.lookup k).isSome := by
  induction l with
  | nil => simp at hmem
  | cons hd tl ih =>
    obtain ⟨a, w⟩ := hd
    by_cases hk : k = a
    · subst hk
      simp [List.lookup_cons]
    · have hne : (k == a) = false := by simp [hk]
      simp only [List.lookup_cons, hne]
      rcases List.mem_cons.mp hmem with heq | htl
      · exact absurd (congrArg Prod.fst heq) hk
      · exact ih htl

theorem assignList_idem {α : Type} (d c : List (String × α))
    (hnd : (d.map Prod.fst).Nodup) :
    assignList d (assignList d c) = assignList d c := by
  have h1 : d.map (fun e => (e.1, ((assignList d c).lookup e.1).getD e.2)) =
      d.map (fun e => (e.1, (c.lookup e.1).getD e.2)) := by
    apply List.map_congr_left
    intro e he
    obtain ⟨k, v⟩ := e
    have hd : d.lookup k = some v := lookup_of_mem_nodupKeys d k v he hnd
    rw [lookup_assignList, hd]
    cases hc : c.lookup k <;> simp [hc]
  have h2 : (assignList d c).filter (fun e => (d.lookup e.1).isNone) =
      c.filter (fun e => (d.lookup e.1).isNone) := by
    unfold assignList
    rw [List.filter_append]
    have hmap : (d.map (fun e => (e.1, (c.lookup e.1).getD e.2))).filter
        (fun e => (d.lookup e.1).isNone) = [] := by
      rw [List.filter_eq_nil_iff]
      intro e he
      rw [List.mem_map] at he
      obtain ⟨⟨k, v⟩, hkv, hev⟩ := he
      have : (d.lookup e.1).isSome := by
        rw [← hev]
        exact mem_lookup_isSome d k v hkv
      simp only [Option.isNone]
      cases hl : d.lookup e.1
      · rw [hl] at this; simp at this
      · simp
    rw [hmap, List.nil_append, List.filter_filter]
    apply List.filter_congr
    intro e he
    rw [Bool.and_self]
  conv_lhs => rw [assignList]
  rw [h1, h2]
  rfl

end AssignLemmas

theorem resolveBase_fixed (ctx : Ctx) (b : String) (h : b.toList.head? = some '/') :
    resolveBase ctx b = b := by
  have hd : b.data.head? = some '/' := h
  unfold resolveBase
  rw [if_neg (by simp [hd]), if_neg (by simp [hd]), if_pos h]

/-- Shared concrete context for witnesses: an absolute home and working
directory and a one-entry ambient environment. -/
def ctx0 : Ctx :=
  { home := "/home/u", cwd := "/cwd", moduleDir := "/app/lib",
    procEnv := [("PATH", "/usr/bin")] }

/-- C3: for every configuration object and the fixed defaults, the `base`
field of `resolveConfig`'s result is an absolute path — whether the supplied
base starts with `.`, `~`, `/`, or none of these (a bare value, resolved
against the current working directory) — given that the ambient `HOME` and
working directory are themselves absolute. -/
theorem resolveConfig_base_always_absolute (ctx : Ctx) (c : Config)
    (hh : isAbsolute ctx.home) (hc : isAbsolute ctx.cwd) :
    isAbsolute (resolveConfig ctx c (defaults ctx)).base :=
  resolveConfig_abs ctx c (defaults ctx) hh hc

theorem resolveConfig_base_always_absolute_witness :
    isAbsolute ctx0.home ∧ isAbsolute ctx0.cwd ∧
      isAbsolute (resolveConfig ctx0
        { base := some "~/x", hooks := none, aliasT := none, extra := [] }
        (defaults ctx0)).base :=
  ⟨by decide, by decide,
    resolveConfig_base_always_absolute ctx0
      { base := some "~/x", hooks := none, aliasT := none, extra := [] }
      (by decide) (by decide)⟩

/-- C8: `resolveConfig` is idempotent — resolving an already-resolved
configuration against the same defaults yields the same result (with the
ambient `HOME` and working directory absolute, and the defaults object,
being a JS object, carrying no duplicate extra keys). -/
theorem resolveConfig_idem (ctx : Ctx) (c : Config) (d : RConfig)
    (hh : isAbsolute ctx.home) (hc : isAbsolute ctx.cwd)
    (hnd : (d.extra.map Prod.fst).Nodup) :
    resolveConfig ctx (RConfig.asConfig (resolveConfig ctx c d)) d =
      resolveConfig ctx c d := by
  have hhead : (resolveBase ctx (c.base.getD d.base)).toList.head? = some '/' := by
    have habs : isAbsolute (resolveConfig ctx c d).base :=
      resolveConfig_abs ctx c d hh hc
    simpa [resolveConfig, isAbsolute, decide_eq_true_eq] using habs
  unfold resolveConfig RConfig.asConfig
  simp only [Option.getD_some]
  rw [resolveBase_fixed ctx _ (by simpa [resolveConfig] using hhead),
    assignList_idem d.extra c.extra hnd]

theorem resolveConfig_idem_witness :
    isAbsolute ctx0.home ∧ isAbsolute ctx0.cwd ∧
      (([("hx", Json.str "v")].map (Prod.fst (α := String) (β := Json))).Nodup) ∧
      resolveConfig ctx0
          (RConfig.asConfig (resolveConfig ctx0
            { base := some "rel", hooks := none, aliasT := none,
              extra := [("k", Json.num 1)] }
            { base := "~/b", hooks := [("h", "c")], aliasT := [],
              extra := [("hx", Json.str "v")] }))
          { base := "~/b", hooks := [("h", "c")], aliasT := [],
            extra := [("hx", Json.str "v")] } =
        resolveConfig ctx0
          { base := some "rel", hooks := none, aliasT := none,
            extra := [("k", Json.num 1)] }
          { base := "~/b", hooks := [("h", "c")], aliasT := [],
            extra := [("hx", Json.str "v")] } :=
  ⟨by decide, by decide, by simp,
    resolveConfig_idem ctx0
      { base := some "rel", hooks := none, aliasT := none,
        extra := [("k", Json.num 1)] }
      { base := "~/b", hooks := [("h", "c")], aliasT := [],
        extra := [("hx", Json.str "v")] }
      (by decide) (by decide) (by simp)⟩

/-- C10: when the supplied `base` starts with `~`, `resolveConfig` replaces
exactly that first `~` with `HOME` by plain string substitution, inserting
no separator: the result is the direct concatenation of `HOME` and the rest
of the base string (so `~/x` becomes `HOME + "/x"` and `~x` becomes
`HOME + "x"`). -/
theorem resolveConfig_tilde_concat (ctx : Ctx) (c : Config) (d : RConfig) (b : String)
    (hb : c.base = some b) (ht : b.toList.head? = some '~') :
    (resolveConfig ctx c d).base = ctx.home ++ String.mk (b.toList.drop 1) := by
  obtain ⟨rest, hrest⟩ : ∃ rest, b.toList = '~' :: rest := by
    cases hl : b.toList with
    | nil => rw [hl] at ht; simp at ht
    | cons ch l =>
      rw [hl] at ht
      simp at ht
      exact ⟨l, by rw [ht]⟩
  have htd : b.data.head? = some '~' := ht
  show resolveBase ctx (c.base.getD d.base) = _
  rw [hb, Option.getD_some]
  unfold resolveBase
  rw [if_neg (by simp [htd]), if_pos ht, hrest, replaceFirst_tilde]
  apply String.ext
  rw [String.data_append]
  rfl

theorem resolveConfig_tilde_concat_witness :
    ({ base := some "~x", hooks := none, aliasT := none,
        extra := [] } : Config).base = some "~x" ∧
      ("~x".toList.head? = some '~') ∧
      (resolveConfig ctx0
          { base := some "~x", hooks := none, aliasT := none, extra := [] }
          (defaults ctx0)).base = ctx0.home ++ String.mk ("~x".toList.drop 1) :=
  ⟨rfl, by decide,
    resolveConfig_tilde_concat ctx0
      { base := some "~x", hooks := none, aliasT := none, extra := [] }
      (defaults ctx0) "~x" rfl (by decide)⟩

theorem runScript_trace (oracle : String → RunOpt → Bool) (cmd : String) (opt : RunOpt) :
    (runScript oracle cmd opt).2 = [Event.script cmd opt] := by
  unfold runScript
  split <;> rfl

/-- Shared concrete resolved configuration (no hooks) for witnesses. -/
def rc0 : RConfig := { base := "/work", hooks := [], aliasT := [], extra := [] }

/-- Shared concrete world (loaded empty index, empty filesystem) for witnesses. -/
def w0 : World := { fsPaths := [], cache := { loaded := true, mem := [], file := [] } }

/-- C5: `runHook(name, key)` is a successful no-op — no subprocess
invocation, no index read, no filesystem check, the world untouched —
whenever `name` has no entry in the configuration's hook table. -/
theorem runHook_noop (ctx : Ctx) (oracle : String → RunOpt → Bool) (cfg : RConfig)
    (w : World) (name cacheKey : String) (h : cfg.hooks.lookup name = none) :
    runHook ctx oracle cfg w name cacheKey = (Except.ok (), w, []) := by
  unfold runHook
  rw [h]

theorem runHook_noop_witness :
    rc0.hooks.lookup "preadd" = none ∧
      runHook ctx0 (fun _ _ => false) rc0 w0 "preadd" "k" = (Except.ok (), w0, []) :=
  ⟨rfl, runHook_noop ctx0 (fun _ _ => false) rc0 w0 "preadd" "k" rfl⟩

/-- C7: for a configured hook, the candidate working directory is
`base/key` when `key` is a known index entry and `key` itself otherwise;
the subprocess receives it as explicit working directory exactly when it
exists on disk (the filesystem holding no empty path), and the hook's
subprocess is invoked with those options after the index read and the
existence check. -/
theorem runHook_cwd_resolution (ctx : Ctx) (oracle : String → RunOpt → Bool)
    (cfg : RConfig) (w : World) (name cacheKey hook : String)
    (h : cfg.hooks.lookup name = some hook) (hne : hook ≠ "")
    (h0 : w.fsPaths.contains "" = false) :
    (((w.cache.load).mem.lookup cacheKey).isSome = true →
        hookCwd cfg w.cache cacheKey = pathJoin [cfg.base, cacheKey]) ∧
    (((w.cache.load).mem.lookup cacheKey).isSome = false →
        hookCwd cfg w.cache cacheKey = cacheKey) ∧
    ((hookOpt ctx cfg w name cacheKey).cwd =
      if w.fsPaths.contains (hookCwd cfg w.cache cacheKey) then
        some (hookCwd cfg w.cache cacheKey)
      else none) ∧
    ((runHook ctx oracle cfg w name cacheKey).2.2 =
      Event.cacheRead cacheKey ::
        (if hookCwd cfg w.cache cacheKey = "" then []
         else [Event.fsCheck (hookCwd cfg w.cache cacheKey)]) ++
        [Event.script hook (hookOpt ctx cfg w name cacheKey)]) := by
  refine ⟨?_, ?_, ?_, ?_⟩
  · intro hin
    unfold hookCwd Cache.get
    simp [hin]
  · intro hout
    unfold hookCwd Cache.get
    simp [hout]
  · unfold hookOpt
    dsimp only
    by_cases hc : w.fsPaths.contains (hookCwd cfg w.cache cacheKey)
    · rw [if_pos hc, if_pos]
      refine ⟨?_, hc⟩
      intro hemp
      rw [hemp] at hc
      rw [h0] at hc
      exact Bool.noConfusion hc
    · rw [if_neg hc, if_neg]
      intro hcon
      exact hc hcon.2
  · unfold runHook
    rw [h]
    simp only [if_neg hne]
    rw [runScript_trace]

theorem runHook_cwd_resolution_witness :
    (({ base := "/work", hooks := [("preadd", "echo hi")], aliasT := [],
        extra := [] } : RConfig).hooks.lookup "preadd" = some "echo hi") ∧
    (hookOpt ctx0
        { base := "/work", hooks := [("preadd", "echo hi")], aliasT := [], extra := [] }
        { fsPaths := ["/work/k"],
          cache := { loaded := true, mem := [("k", "u")], file := [("k", "u")] } }
        "preadd" "k").cwd =
      (if ({ fsPaths := ["/work/k"],
             cache := { loaded := true, mem := [("k", "u")], file := [("k", "u")] } } :
               World).fsPaths.contains
            (hookCwd
              { base := "/work", hooks := [("preadd", "echo hi")], aliasT := [], extra := [] }
              ({ fsPaths := ["/work/k"],
                 cache := { loaded := true, mem := [("k", "u")], file := [("k", "u")] } } :
                   World).cache "k") then
         some (hookCwd
           { base := "/work", hooks := [("preadd", "echo hi")], aliasT := [], extra := [] }
           ({ fsPaths := ["/work/k"],
              cache := { loaded := true, mem := [("k", "u")], file := [("k", "u")] } } :
                World).cache "k")
       else none) :=
  ⟨rfl,
    (runHook_cwd_resolution ctx0 (fun _ _ => true)
      { base := "/work", hooks := [("preadd", "echo hi")], aliasT := [], extra := [] }
      { fsPaths := ["/work/k"],
        cache := { loaded := true, mem := [("k", "u")], file := [("k", "u")] } }
      "preadd" "k" "echo hi" rfl (by decide) rfl).2.2.1⟩

theorem lookup_cons_ne {α : Type} (k a : String) (v : α) (l : List (String × α))
    (h : k ≠ a) : ((a, v) :: l).lookup k = l.lookup k := by
  have : (k == a) = false := by simp [h]
  simp [List.lookup_cons, this]

theorem lookup_cons_self {α : Type} (a : String) (v : α) (l : List (String × α)) :
    ((a, v) :: l).lookup a = some v := by
  simp [List.lookup_cons]

theorem hookEnv_lookup_path (ctx : Ctx) (cfg : RConfig) (name : String) :
    (hookEnv ctx cfg name).lookup "PATH" =
      some (configDir ctx ++ "/hooks:" ++ templateVal (ctx.procEnv.lookup "PATH")) := by
  unfold hookEnv
  split
  · split
    · rw [List.cons_append, lookup_cons_self]
    · rw [lookup_cons_self]
  · rw [lookup_cons_self]

theorem hookEnv_lookup_name (ctx : Ctx) (cfg : RConfig) (name : String) :
    (hookEnv ctx cfg name).lookup "PROJJ_HOOK_NAME" = some name := by
  unfold hookEnv
  split
  · split
    · rw [List.cons_append, lookup_cons_ne _ _ _ _ (by decide), List.cons_append,
        lookup_cons_self]
    · rw [lookup_cons_ne _ _ _ _ (by decide), lookup_cons_self]
  · rw [lookup_cons_ne _ _ _ _ (by decide), lookup_cons_self]

theorem hookEnv_lookup_config (ctx : Ctx) (cfg : RConfig) (name : String) :
    (hookEnv ctx cfg name).lookup "PROJJ_HOOK_CONFIG" =
      (match configLookup cfg name with
       | some j => if j.truthy then some (Json.stringify j) else none
       | none => none) := by
  unfold hookEnv
  split
  · rename_i j hj
    split
    · rw [List.cons_append, lookup_cons_ne _ _ _ _ (by decide), List.cons_append,
        lookup_cons_ne _ _ _ _ (by decide), List.nil_append, lookup_cons_self]
    · rw [lookup_cons_ne _ _ _ _ (by decide), lookup_cons_ne _ _ _ _ (by decide)]
      rfl
  · rw [lookup_cons_ne _ _ _ _ (by decide), lookup_cons_ne _ _ _ _ (by decide)]
    rfl

theorem hookEnv_lookup_other (ctx : Ctx) (cfg : RConfig) (name k : String)
    (h1 : k ≠ "PATH") (h2 : k ≠ "PROJJ_HOOK_NAME") (h3 : k ≠ "PROJJ_HOOK_CONFIG") :
    (hookEnv ctx cfg name).lookup k = none := by
  unfold hookEnv
  split
  · split
    · rw [List.cons_append, lookup_cons_ne _ _ _ _ h1, List.cons_append,
        lookup_cons_ne _ _ _ _ h2, List.nil_append, lookup_cons_ne _ _ _ _ h3]
      rfl
    · rw [lookup_cons_ne _ _ _ _ h1, lookup_cons_ne _ _ _ _ h2]
      rfl
  · rw [lookup_cons_ne _ _ _ _ h1, lookup_cons_ne _ _ _ _ h2]
    rfl

/-- C6 (amended): for a hook invocation, the subprocess environment is the
ambient process environment overlaid (overlay winning on conflicts) with
`PATH` prefixed by the fixed hooks directory and `PROJJ_HOOK_NAME = name`;
`PROJJ_HOOK_CONFIG` carries the JSON serialization of the top-level
configuration entry under `name` if and only if such an entry exists AND is
truthy in the JavaScript sense (not `null`, `false`, `0`, or `""`). -/
theorem runHook_env_construction (ctx : Ctx) (cfg : RConfig) (w : World)
    (name cacheKey : String) (p : String)
    (hp : ctx.procEnv.lookup "PATH" = some p)
    (hnc : ctx.procEnv.lookup "PROJJ_HOOK_CONFIG" = none) :
    ((hookOpt ctx cfg w name cacheKey).env.lookup "PATH" =
        some (configDir ctx ++ "/hooks:" ++ p)) ∧
    ((hookOpt ctx cfg w name cacheKey).env.lookup "PROJJ_HOOK_NAME" = some name) ∧
    ((hookOpt ctx cfg w name cacheKey).env.lookup "PROJJ_HOOK_CONFIG" =
      (match configLookup cfg name with
       | some j => if j.truthy then some (Json.stringify j) else none
       | none => none)) ∧
    (∀ k : String, k ≠ "PATH" → k ≠ "PROJJ_HOOK_NAME" → k ≠ "PROJJ_HOOK_CONFIG" →
      (hookOpt ctx cfg w name cacheKey).env.lookup k = ctx.procEnv.lookup k) ∧
    (∀ (oracle : String → RunOpt → Bool) (hook : String),
      cfg.hooks.lookup name = some hook → hook ≠ "" →
      Event.script hook (hookOpt ctx cfg w name cacheKey) ∈
        (runHook ctx oracle cfg w name cacheKey).2.2) := by
  have henv : (hookOpt ctx cfg w name cacheKey).env =
      assignList ctx.procEnv (hookEnv ctx cfg name) := rfl
  refine ⟨?_, ?_, ?_, ?_, ?_⟩
  · rw [henv, lookup_assignList, hookEnv_lookup_path, hp]
    rfl
  · rw [henv, lookup_assignList, hookEnv_lookup_name]
    rfl
  · rw [henv, lookup_assignList, hookEnv_lookup_config, hnc]
    split <;> (try split) <;> rfl
  · intro k h1 h2 h3
    rw [henv, lookup_assignList, hookEnv_lookup_other ctx cfg name k h1 h2 h3]
    cases ctx.procEnv.lookup k <;> rfl
  · intro oracle hook hh hne
    unfold runHook
    rw [hh]
    simp only [if_neg hne]
    rw [runScript_trace]
    simp

theorem runHook_env_construction_witness :
    ctx0.procEnv.lookup "PATH" = some "/usr/bin" ∧
      (hookOpt ctx0 rc0 w0 "preadd" "k").env.lookup "PROJJ_HOOK_NAME" =
        some "preadd" :=
  ⟨rfl,
    (runHook_env_construction ctx0 rc0 w0 "preadd" "k" "/usr/bin" rfl rfl).2.1⟩

/-- Concrete configuration refuting C6 as stated: the top-level entry under
hook name `h` exists (it is `null`), yet `PROJJ_HOOK_CONFIG` is not set. -/
def cfgCE : RConfig :=
  { base := "/work", hooks := [("h", "echo hi")], aliasT := [],
    extra := [("h", Json.null)] }

/-- C6 counterexample: with hook-specific configuration present but equal
to JSON `null` (falsy), the hook subprocess environment carries no
`PROJJ_HOOK_CONFIG`, contradicting the claimed "if and only if such
hook-specific configuration exists". -/
theorem runHook_env_counterexample :
    configLookup cfgCE "h" = some Json.null ∧
      cfgCE.hooks.lookup "h" = some "echo hi" ∧
      (hookOpt ctx0 cfgCE w0 "h" "k").env.lookup "PROJJ_HOOK_CONFIG" = none :=
  ⟨rfl, rfl, rfl⟩

theorem runHook_no_mut (ctx : Ctx) (oracle : String → RunOpt → Bool) (cfg : RConfig)
    (w : World) (name cacheKey : String) :
    ∀ e ∈ (runHook ctx oracle cfg w name cacheKey).2.2, e.isMut = false := by
  unfold runHook
  split
  · simp
  · split
    · simp
    · dsimp only
      rw [runScript_trace]
      intro e he
      simp only [List.mem_cons, List.mem_append, List.mem_singleton] at he
      rcases he with (rfl | he) | (rfl | he)
      · rfl
      · by_cases hcwd : hookCwd cfg w.cache cacheKey = ""
        · rw [if_pos hcwd] at he
          simp at he
        · rw [if_neg hcwd] at he
          simp at he
          subst he
          rfl
      · rfl
      · simp at he

theorem runHook_world (ctx : Ctx) (oracle : String → RunOpt → Bool) (cfg : RConfig)
    (w : World) (name cacheKey : String) :
    (runHook ctx oracle cfg w name cacheKey).2.1 = w ∨
    (runHook ctx oracle cfg w name cacheKey).2.1 =
      { w with cache := (Cache.get w.cache cacheKey).2 } := by
  unfold runHook
  split
  · left; rfl
  · split
    · left; rfl
    · right; rfl

theorem cacheGet_file (c : Cache) (k : String) : ((Cache.get c k).2).file = c.file := by
  unfold Cache.get Cache.load
  dsimp only
  split <;> rfl

theorem cacheGet_absent (c : Cache) (k q : String) (h1 : c.mem.lookup q = none)
    (h2 : c.file.lookup q = none) :
    ((Cache.get c k).2).mem.lookup q = none ∧
      ((Cache.get c k).2).file.lookup q = none := by
  unfold Cache.get Cache.load
  dsimp only
  split
  · exact ⟨h1, h2⟩
  · exact ⟨h2, h2⟩

/-- C1: when the clone subprocess of `addRepo(repo, cacheKey)` fails (after
a successful preadd stage), the whole call fails with that error, the trace
stops right after the clone invocation — so no `cache.set`, no `cache.dump`
and no postadd hook happen — the persisted index file is untouched, and a
key absent from the index beforehand is still absent afterwards. -/
theorem addRepo_clone_failure (ctx : Ctx) (oracle : String → RunOpt → Bool)
    (cfg : RConfig) (w : World) (repo cacheKey : String)
    (hpre : (runHook ctx oracle cfg w "preadd" cacheKey).1 = Except.ok ())
    (hclone : oracle (cloneCmd cfg repo cacheKey) (cloneOpt ctx) = false) :
    (addRepo ctx oracle cfg w repo cacheKey).1 =
        Except.error (cloneCmd cfg repo cacheKey) ∧
    (addRepo ctx oracle cfg w repo cacheKey).2.2 =
      (runHook ctx oracle cfg w "preadd" cacheKey).2.2
        ++ [Event.script (cloneCmd cfg repo cacheKey) (cloneOpt ctx)] ∧
    (∀ k v, Event.cacheSet k v ∉ (addRepo ctx oracle cfg w repo cacheKey).2.2) ∧
    Event.cacheDump ∉ (addRepo ctx oracle cfg w repo cacheKey).2.2 ∧
    ((addRepo ctx oracle cfg w repo cacheKey).2.1).cache.file = w.cache.file ∧
    (w.cache.mem.lookup cacheKey = none → w.cache.file.lookup cacheKey = none →
      ((addRepo ctx oracle cfg w repo cacheKey).2.1).cache.mem.lookup cacheKey = none ∧
      ((addRepo ctx oracle cfg w repo cacheKey).2.1).cache.file.lookup cacheKey = none) := by
  rcases hp : runHook ctx oracle cfg w "preadd" cacheKey with ⟨r1, w1, evs1⟩
  have hr1 : r1 = Except.ok () := by
    rw [hp] at hpre
    exact hpre
  subst hr1
  have hmut : ∀ e ∈ evs1, e.isMut = false := by
    have := runHook_no_mut ctx oracle cfg w "preadd" cacheKey
    rw [hp] at this
    exact this
  have hw1 : w1 = w ∨ w1 = { w with cache := (Cache.get w.cache cacheKey).2 } := by
    have := runHook_world ctx oracle cfg w "preadd" cacheKey
    rw [hp] at this
    exact this
  have hadd : addRepo ctx oracle cfg w repo cacheKey =
      (Except.error (cloneCmd cfg repo cacheKey), w1,
        evs1 ++ [Event.script (cloneCmd cfg repo cacheKey) (cloneOpt ctx)]) := by
    unfold addRepo
    rw [hp]
    dsimp only
    unfold runScript
    rw [hclone]
    rfl
  rw [hadd]
  refine ⟨rfl, rfl, ?_, ?_, ?_, ?_⟩
  · intro k v hmem
    dsimp only at hmem
    rcases List.mem_append.mp hmem with hm | hm
    · have := hmut _ hm
      simp [Event.isMut] at this
    · simp at hm
  · intro hmem
    dsimp only at hmem
    rcases List.mem_append.mp hmem with hm | hm
    · have := hmut _ hm
      simp [Event.isMut] at this
    · simp at hm
  · rcases hw1 with rfl | rfl
    · rfl
    · exact cacheGet_file w.cache cacheKey
  · intro h1 h2
    rcases hw1 with rfl | rfl
    · exact ⟨h1, h2⟩
    · exact cacheGet_absent w.cache cacheKey cacheKey h1 h2

theorem addRepo_clone_failure_witness :
    (runHook ctx0 (fun _ _ => false) rc0 w0 "preadd" "k").1 = Except.ok () ∧
      (fun (_ : String) (_ : RunOpt) => false) (cloneCmd rc0 "https://u" "k")
        (cloneOpt ctx0) = false ∧
      (addRepo ctx0 (fun _ _ => false) rc0 w0 "https://u" "k").1 =
        Except.error (cloneCmd rc0 "https://u" "k") :=
  ⟨rfl, rfl,
    (addRepo_clone_failure ctx0 (fun _ _ => false) rc0 w0 "https://u" "k" rfl rfl).1⟩

/-- C2: a successful `addRepo` executes exactly the sequence preadd hook,
clone, index set, index dump, postadd hook (trace equality, so a configured
preadd hook's subprocess runs before the clone subprocess starts), and the
first failing step terminates the sequence: a preadd failure propagates with
only the preadd trace, and a clone failure stops right after the clone
invocation. -/
theorem addRepo_sequence (ctx : Ctx) (oracle : String → RunOpt → Bool)
    (cfg : RConfig) (w : World) (repo cacheKey : String) :
    ((addRepo ctx oracle cfg w repo cacheKey).1 = Except.ok () →
      (addRepo ctx oracle cfg w repo cacheKey).2.2 =
        (runHook ctx oracle cfg w "preadd" cacheKey).2.2
          ++ [Event.script (cloneCmd cfg repo cacheKey) (cloneOpt ctx)]
          ++ [Event.cacheSet cacheKey repo, Event.cacheDump]
          ++ (runHook ctx oracle cfg
                { (runHook ctx oracle cfg w "preadd" cacheKey).2.1 with
                  cache := (((runHook ctx oracle cfg w "preadd" cacheKey).2.1).cache.set
                      cacheKey repo).dump }
                "postadd" cacheKey).2.2) ∧
    (∀ e, (runHook ctx oracle cfg w "preadd" cacheKey).1 = Except.error e →
      addRepo ctx oracle cfg w repo cacheKey =
        (Except.error e, (runHook ctx oracle cfg w "preadd" cacheKey).2.1,
          (runHook ctx oracle cfg w "preadd" cacheKey).2.2)) ∧
    ((runHook ctx oracle cfg w "preadd" cacheKey).1 = Except.ok () →
      oracle (cloneCmd cfg repo cacheKey) (cloneOpt ctx) = false →
      (addRepo ctx oracle cfg w repo cacheKey).2.2 =
        (runHook ctx oracle cfg w "preadd" cacheKey).2.2
          ++ [Event.script (cloneCmd cfg repo cacheKey) (cloneOpt ctx)]) := by
  rcases hp : runHook ctx oracle cfg w "preadd" cacheKey with ⟨r1, w1, evs1⟩
  cases r1 with
  | error e0 =>
    have hadd : addRepo ctx oracle cfg w repo cacheKey = (Except.error e0, w1, evs1) := by
      unfold addRepo
      rw [hp]
    refine ⟨?_, ?_, ?_⟩
    · intro h
      rw [hadd] at h
      simp at h
    · intro e he
      dsimp only at he
      have he0 : e0 = e := by
        simpa using he
      subst he0
      rw [hadd]
    · intro hok
      dsimp only at hok
      simp at hok
  | ok u =>
    cases hcl : oracle (cloneCmd cfg repo cacheKey) (cloneOpt ctx) with
    | false =>
      have hadd : addRepo ctx oracle cfg w repo cacheKey =
          (Except.error (cloneCmd cfg repo cacheKey), w1,
            evs1 ++ [Event.script (cloneCmd cfg repo cacheKey) (cloneOpt ctx)]) := by
        unfold addRepo
        rw [hp]
        dsimp only
        unfold runScript
        rw [hcl]
        rfl
      refine ⟨?_, ?_, ?_⟩
      · intro h
        rw [hadd] at h
        simp at h
      · intro e he
        dsimp only at he
        simp at he
      · intro _ _
        rw [hadd]
    | true =>
      have hadd : addRepo ctx oracle cfg w repo cacheKey =
          ((runHook ctx oracle cfg
              { w1 with cache := (w1.cache.set cacheKey repo).dump }
              "postadd" cacheKey).1,
            (runHook ctx oracle cfg
              { w1 with cache := (w1.cache.set cacheKey repo).dump }
              "postadd" cacheKey).2.1,
            evs1 ++ [Event.script (cloneCmd cfg repo cacheKey) (cloneOpt ctx)]
              ++ [Event.cacheSet cacheKey repo, Event.cacheDump]
              ++ (runHook ctx oracle cfg
                    { w1 with cache := (w1.cache.set cacheKey repo).dump }
                    "postadd" cacheKey).2.2) := by
        unfold addRepo
        rw [hp]
        dsimp only
        unfold runScript
        rw [hcl]
        rfl
      refine ⟨?_, ?_, ?_⟩
      · intro _
        rw [hadd]
      · intro e he
        dsimp only at he
        simp at he
      · intro _ hcl2
        exact Bool.noConfusion hcl2

theorem addRepo_sequence_witness :
    (addRepo ctx0 (fun _ _ => true) rc0 w0 "https://u" "k").2.2 =
      (runHook ctx0 (fun _ _ => true) rc0 w0 "preadd" "k").2.2
        ++ [Event.script (cloneCmd rc0 "https://u" "k") (cloneOpt ctx0)]
        ++ [Event.cacheSet "k" "https://u", Event.cacheDump]
        ++ (runHook ctx0 (fun _ _ => true) rc0
              { (runHook ctx0 (fun _ _ => true) rc0 w0 "preadd" "k").2.1 with
                cache := (((runHook ctx0 (fun _ _ => true) rc0 w0 "preadd" "k").2.1).cache.set
                    "k" "https://u").dump }
              "postadd" "k").2.2 :=
  (addRepo_sequence ctx0 (fun _ _ => true) rc0 w0 "https://u" "k").1 rfl

theorem stripScheme_https (r : List Char) :
    stripScheme ('h':: 't':: 't':: 'p':: 's':: ':':: '/':: '/'::r) = r := by
  unfold stripScheme
  rw [if_pos]
  · rfl
  · rw [show ('h':: 't':: 't':: 'p':: 's':: ':':: '/':: '/'::r) = "https://".toList ++ r from rfl]
    exact List.isPrefixOf_iff_prefix.mpr (List.prefix_append _ r)

theorem stripScheme_http (r : List Char) :
    stripScheme ('h':: 't':: 't':: 'p':: ':':: '/':: '/'::r) = r := by
  unfold stripScheme
  rw [if_neg, if_pos]
  · rfl
  · rw [show ('h':: 't':: 't':: 'p':: ':':: '/':: '/'::r) = "http://".toList ++ r from rfl]
    exact List.isPrefixOf_iff_prefix.mpr (List.prefix_append _ r)
  · intro hc
    rw [show ("https://".toList.isPrefixOf ('h':: 't':: 't':: 'p':: ':':: '/':: '/'::r)) =
        false from rfl] at hc
    exact Bool.noConfusion hc

/-- C9: `url2dir` is a deterministic function of its input URL alone (the
embedding is a pure function of the URL, with the external normalizer for
non-transport forms abstracted as `conv`), and it strips the leading
`http://`/`https://` scheme of a transport URL; in particular
`https://example.com/org/repo` yields the canonical key
`example.com/org/repo`. -/
theorem url2dir_pure_normalization (conv : String → String) :
    url2dir conv "https://example.com/org/repo" = "example.com/org/repo" ∧
    (∀ t : String, url2dir conv ("https://" ++ t) = t) ∧
    (∀ t : String, url2dir conv ("http://" ++ t) = t) := by
  refine ⟨rfl, ?_, ?_⟩
  · intro t
    have ht : ("https://" ++ t).toList = "https://".toList ++ t.toList :=
      String.data_append _ _
    have htrans : isTransportUrl ("https://" ++ t) = true := by
      unfold isTransportUrl
      rw [ht, List.isPrefixOf_iff_prefix.mpr (List.prefix_append _ _)]
      simp
    unfold url2dir giturlParse
    rw [if_pos htrans,
      show ("https://" ++ t).toList = 'h':: 't':: 't':: 'p':: 's':: ':':: '/':: '/'::t.toList
        from by rw [ht]; rfl,
      stripScheme_https]
    rfl
  · intro t
    have ht : ("http://" ++ t).toList = "http://".toList ++ t.toList :=
      String.data_append _ _
    have htrans : isTransportUrl ("http://" ++ t) = true := by
      unfold isTransportUrl
      rw [ht, List.isPrefixOf_iff_prefix.mpr (List.prefix_append _ _)]
      simp
    unfold url2dir giturlParse
    rw [if_pos htrans,
      show ("http://" ++ t).toList = 'h':: 't':: 't':: 'p':: ':':: '/':: '/'::t.toList
        from by rw [ht]; rfl,
      stripScheme_http]
    rfl

/-- C4 (failing input): the persisted configuration file exists but defines
no `base`; `loadConfig` resolves `base` from the defaults before testing it,
so the always-truthy resolved `base` suppresses the prompt — no `prompt`
event and no `fileWrite` event occur, contradicting the documented intent
("ignore when base has been defined in ~/.projj/config"). -/
theorem loadConfig_no_prompt_on_existing_file :
    (loadConfig ctx0 (fun d => d)
        (some { base := none, hooks := none, aliasT := none, extra := [] })).2 =
      [Event.mkdirEv (configDir ctx0), Event.fsCheck (configPath ctx0),
        Event.fileRead (configPath ctx0)] ∧
    (loadConfig ctx0 (fun d => d)
        (some { base := none, hooks := none, aliasT := none, extra := [] })).1.base =
      "/home/u/projj" :=
  ⟨rfl, rfl⟩
